import Mathlib

/-!
Shallow embedding of the recording-metadata REST backend (`server.js`).

The server keeps Recording rows in a SQLite table (`id INTEGER PRIMARY KEY
AUTOINCREMENT, filename, url, filesize, createdAt TIMESTAMP DEFAULT
CURRENT_TIMESTAMP`) and the binary payloads in a Supabase storage bucket
named `uploads`.  Handlers are modelled as pure functions over an explicit
`ServerState`; the outcomes of the two remote storage calls (upload, remove)
and the wall-clock reads are injected as parameters.  Each handler returns
the HTTP response, the successor state, and the list of object-store
operations it attempted.
-/

namespace Backend

/-- SQLite `CURRENT_TIMESTAMP` has whole-second granularity while the
handler clock (`Date.now()`) is in milliseconds: the store-assigned insert
time is the clock value truncated to the second. -/
def secTrunc (t : Nat) : Nat := t / 1000 * 1000

/-- Decimal digits of `n`, most significant first (fuel-structured so it
computes by kernel reduction).  This renders JS template interpolation of a
number, as in `` `recording-${Date.now()}.webm` ``. -/
def decCharsAux : Nat → Nat → List Char
  | 0, _ => []
  | fuel + 1, n =>
    if n < 10 then [Char.ofNat (48 + n)]
    else decCharsAux fuel (n / 10) ++ [Char.ofNat (48 + n % 10)]

/-- Decimal rendering of a natural number, as JS string interpolation does. -/
def decimalRepr (n : Nat) : String := String.mk (decCharsAux (n + 1) n)

/-- JS `str.split(sep)` specialised to a one-character separator, on the
character list of the string. -/
def splitChar (sep : Char) : List Char → List (List Char)
  | [] => [[]]
  | c :: cs =>
    match splitChar sep cs with
    | [] => [[]]
    | p :: ps => if c = sep then [] :: p :: ps else (c :: p) :: ps

/-- Last element of the segment list (`Array.prototype.pop` on the result of
`split`, which is never empty). -/
def lastSeg : List (List Char) → List Char
  | [] => []
  | [p] => p
  | _ :: q :: ps => lastSeg (q :: ps)

/-- JS `url.split("/").pop()`: the trailing path segment of a string. -/
def jsSplitPop (s : String) : String :=
  String.mk (lastSeg (splitChar '/' s.data))

/-- Value of a decimal digit character. -/
def digitVal (c : Char) : Option Nat :=
  if 48 ≤ c.toNat ∧ c.toNat ≤ 57 then some (c.toNat - 48) else none

def parseDecAux : Nat → List Char → Option Nat
  | acc, [] => some acc
  | acc, c :: cs =>
    match digitVal c with
    | some d => parseDecAux (acc * 10 + d) cs
    | none => none

/-- The text route parameter `:id` compared against the INTEGER `id` column:
SQLite column affinity converts a numeric-looking string to the integer it
denotes, and a non-numeric string matches no integer id. -/
def parseDec (s : String) : Option Nat :=
  if s.data = [] then none else parseDecAux 0 s.data

/-- A row of the `recordings` table. `createdAt` holds the store-assigned
insert time (second-truncated clock value, mirroring `CURRENT_TIMESTAMP`);
in the record echoed by the 201 response body the same field carries the
handler clock at response construction (`new Date()`). -/
structure Recording where
  id : Nat
  filename : String
  url : String
  filesize : Nat
  createdAt : Nat
deriving DecidableEq, Repr

/-- `req.file` as produced by multer memory storage: payload bytes and size. -/
structure UploadedFile where
  buffer : List Nat
  size : Nat
deriving DecidableEq, Repr

/-- Outcome of one remote Supabase storage call, injected per request. -/
inductive StorageOutcome
  | ok
  | storageError
deriving DecidableEq, Repr

/-- Process configuration fixed at startup: the Supabase project URL and
whether a prebuilt frontend directory was found. -/
structure Config where
  supabaseUrl : String
  hasBuildFolder : Bool
deriving DecidableEq, Repr

/-- Combined store state: the `recordings` table rows in insertion order,
the AUTOINCREMENT sequence (largest id ever assigned), and the contents of
the `uploads` bucket. -/
structure ServerState where
  rows : List Recording
  seq : Nat
  objects : List (String × List Nat)
deriving DecidableEq, Repr

/-- State after `initDB` on a fresh database file: empty table, sequence 0. -/
def initState : ServerState := ⟨[], 0, []⟩

/-- `supabase.storage.from("uploads").getPublicUrl(name)`: deterministic
public address of the object inside the fixed `uploads` bucket. -/
def getPublicUrl (cfg : Config) (objectName : String) : String :=
  cfg.supabaseUrl ++ "/storage/v1/object/public/uploads/" ++ objectName

/-- `` `recording-${Date.now()}.webm` `` — the generated object name. -/
def uniqueName (t : Nat) : String :=
  "recording-" ++ decimalRepr t ++ ".webm"

/-- Bucket upload with provider overwrite semantics for a colliding name. -/
def upsertObj (objects : List (String × List Nat)) (nm : String)
    (payload : List Nat) : List (String × List Nat) :=
  (nm, payload) :: objects.filter (fun o => o.1 ≠ nm)

/-- Bucket delete-by-name. -/
def removeObj (objects : List (String × List Nat)) (nm : String) :
    List (String × List Nat) :=
  objects.filter (fun o => o.1 ≠ nm)

/-- One attempted object-store operation (recorded even when the provider
answers with a StorageError). -/
inductive StorageOp
  | upload (nm : String) (payload : List Nat)
  | remove (nm : String)
deriving DecidableEq, Repr

/-- HTTP response bodies the server produces. -/
inductive Body
  | recordingJson (message : String) (rec : Recording)
  | listJson (recs : List Recording)
  | errorJson (msg : String)
  | messageJson (msg : String)
  | redirect (url : String)
  | page (nm : String)
  | text (msg : String)
deriving DecidableEq, Repr

structure Response where
  status : Nat
  body : Body
deriving DecidableEq, Repr

/-- Result of handling one request: response, successor state, attempted
object-store operations. -/
structure Step where
  resp : Response
  state : ServerState
  ops : List StorageOp
deriving DecidableEq, Repr

/-- `db.get("SELECT * FROM recordings WHERE id = ?", [idStr])`. -/
def dbGet (s : ServerState) (idStr : String) : Option Recording :=
  s.rows.find? (fun r => parseDec idStr = some r.id)

/-- The `ORDER BY createdAt DESC` comparison: a row sorts before another
when its creation time is at least as late. -/
def newerFirst (a b : Recording) : Prop := b.createdAt ≤ a.createdAt

instance : DecidableRel newerFirst :=
  fun a b => Nat.decLe b.createdAt a.createdAt

instance : IsTotal Recording newerFirst :=
  ⟨fun a b => Nat.le_total b.createdAt a.createdAt⟩

instance : IsTrans Recording newerFirst :=
  ⟨fun _ _ _ hab hbc => Nat.le_trans hbc hab⟩

/-- `db.all("SELECT * FROM recordings ORDER BY createdAt DESC")`. -/
def listAll (s : ServerState) : List Recording :=
  List.insertionSort newerFirst s.rows

/-- The name the delete handler derives for the object-store removal:
`recording.url.split("/").pop()`. -/
def deleteDerivedName (r : Recording) : String := jsSplitPop r.url

/-- `POST /api/recordings`: reject a missing file with 400; upload the
payload under the generated name (500 on StorageError, no row written);
otherwise insert the metadata row and echo a Recording whose `createdAt`
is freshly taken from the clock at response time. -/
def createHandler (cfg : Config) (s : ServerState) (file? : Option UploadedFile)
    (outcome : StorageOutcome) (tName tIns tResp : Nat) : Step :=
  match file? with
  | none => ⟨⟨400, Body.errorJson "No file uploaded"⟩, s, []⟩
  | some f =>
    let nm := uniqueName tName
    match outcome with
    | StorageOutcome.storageError =>
      ⟨⟨500, Body.errorJson "Failed to upload recording"⟩, s,
        [StorageOp.upload nm f.buffer]⟩
    | StorageOutcome.ok =>
      let url := getPublicUrl cfg nm
      ⟨⟨201, Body.recordingJson "Recording uploaded successfully"
          ⟨s.seq + 1, nm, url, f.size, tResp⟩⟩,
        ⟨s.rows ++ [⟨s.seq + 1, nm, url, f.size, secTrunc tIns⟩], s.seq + 1,
          upsertObj s.objects nm f.buffer⟩,
        [StorageOp.upload nm f.buffer]⟩

/-- `GET /api/recordings`. -/
def listHandler (s : ServerState) : Step :=
  ⟨⟨200, Body.listJson (listAll s)⟩, s, []⟩

/-- `GET /api/recordings/:id`: redirect to the stored url, 404 when the id
is absent. -/
def getOneHandler (s : ServerState) (idStr : String) : Step :=
  match dbGet s idStr with
  | none => ⟨⟨404, Body.errorJson "Recording not found"⟩, s, []⟩
  | some r => ⟨⟨302, Body.redirect r.url⟩, s, []⟩

/-- `DELETE /api/recordings/:id`: 404 when the id is absent (no storage call
made); on StorageError from the bucket removal answer 500 and leave the row
in place; otherwise delete the row and confirm. -/
def deleteHandler (s : ServerState) (idStr : String)
    (outcome : StorageOutcome) : Step :=
  match dbGet s idStr with
  | none => ⟨⟨404, Body.errorJson "Recording not found"⟩, s, []⟩
  | some r =>
    match outcome with
    | StorageOutcome.storageError =>
      ⟨⟨500, Body.errorJson "Failed to delete file from Supabase"⟩, s,
        [StorageOp.remove (deleteDerivedName r)]⟩
    | StorageOutcome.ok =>
      ⟨⟨200, Body.messageJson "Recording deleted successfully"⟩,
        ⟨s.rows.filter (fun q => parseDec idStr ≠ some q.id), s.seq,
          removeObj s.objects (deleteDerivedName r)⟩,
        [StorageOp.remove (deleteDerivedName r)]⟩

/-- HTTP methods the CORS layer admits for API traffic. -/
inductive Method
  | get
  | post
  | del
deriving DecidableEq, Repr

structure Request where
  method : Method
  path : String
deriving DecidableEq, Repr

/-- The four API routes, with the raw `:id` path segment where present. -/
inductive ApiOp
  | create
  | list
  | getOne (idStr : String)
  | deleteOne (idStr : String)
deriving DecidableEq, Repr

/-- Drop an expected leading character sequence, or fail. -/
def dropPre : List Char → List Char → Option (List Char)
  | [], l => some l
  | _ :: _, [] => none
  | c :: cs, d :: ds => if c = d then dropPre cs ds else none

/-- Match `/api/recordings/:id`: one further nonempty path segment. -/
def idParam (p : String) : Option String :=
  match dropPre "/api/recordings/".data p.data with
  | some rest =>
    if rest ≠ [] ∧ '/' ∉ rest then some (String.mk rest) else none
  | none => none

/-- Express routing over the registered API routes, in registration order. -/
def matchRoute (req : Request) : Option ApiOp :=
  match req.method with
  | Method.post =>
    if req.path = "/api/recordings" then some ApiOp.create else none
  | Method.get =>
    if req.path = "/api/recordings" then some ApiOp.list
    else (idParam req.path).map ApiOp.getOne
  | Method.del => (idParam req.path).map ApiOp.deleteOne

/-- Per-request environment: the decoded multipart file (if any), the
outcomes of the storage calls the request may make, and the three clock
reads of the create handler (name generation, insert, response). -/
structure Env where
  file? : Option UploadedFile
  uploadOutcome : StorageOutcome
  removeOutcome : StorageOutcome
  tName : Nat
  tIns : Nat
  tResp : Nat
deriving DecidableEq, Repr

/-- Full dispatch: the four API routes, then — when a frontend build exists —
the static/SPA catch-all for GET, and finally the 404 text fallback. -/
def handle (cfg : Config) (s : ServerState) (env : Env) (req : Request) :
    Step :=
  match matchRoute req with
  | some ApiOp.create =>
    createHandler cfg s env.file? env.uploadOutcome env.tName env.tIns env.tResp
  | some ApiOp.list => listHandler s
  | some (ApiOp.getOne idStr) => getOneHandler s idStr
  | some (ApiOp.deleteOne idStr) => deleteHandler s idStr env.removeOutcome
  | none =>
    if cfg.hasBuildFolder = true ∧ req.method = Method.get then
      ⟨⟨200, Body.page "index.html"⟩, s, []⟩
    else
      ⟨⟨404, Body.text "Route not found"⟩, s, []⟩

/-- State transition of one handled request. -/
def stepState (cfg : Config) (s : ServerState) (ev : Request × Env) :
    ServerState :=
  (handle cfg s ev.2 ev.1).state

/-- Run a trace of requests with their environments. -/
def runTrace (cfg : Config) (s : ServerState) (evs : List (Request × Env)) :
    ServerState :=
  evs.foldl (stepState cfg) s

/-- The id assigned by a request, when it is a successful create. -/
def emitted (st : Step) : List Nat :=
  match st.resp.status, st.resp.body with
  | 201, Body.recordingJson _ r => [r.id]
  | _, _ => []

/-- All ids handed out along a trace, in order. -/
def assignedIds (cfg : Config) : ServerState → List (Request × Env) → List Nat
  | _, [] => []
  | s, ev :: evs =>
    emitted (handle cfg s ev.2 ev.1) ++
      assignedIds cfg (handle cfg s ev.2 ev.1).state evs

/-- Store well-formedness: row ids are pairwise distinct and never exceed
the AUTOINCREMENT sequence. -/
def WF (s : ServerState) : Prop :=
  (s.rows.map Recording.id).Nodup ∧ ∀ r ∈ s.rows, r.id ≤ s.seq

/-- N successful creates (all storage calls succeed), one per clock value. -/
def runCreates (cfg : Config) (f : UploadedFile) (s : ServerState)
    (ts : List Nat) : ServerState :=
  ts.foldl
    (fun s' t => (createHandler cfg s' (some f) StorageOutcome.ok t t t).state) s

/-- The `createdAt` field of the Recording echoed in a response body. -/
def respCreatedAt (st : Step) : Option Nat :=
  match st.resp.body with
  | Body.recordingJson _ r => some r.createdAt
  | _ => none

/-! Concrete fixtures used to instantiate the theorems. -/

def cfgEx : Config := ⟨"https://example.supabase.co", false⟩

def cfgSpa : Config := ⟨"https://example.supabase.co", true⟩

def fileEx : UploadedFile := ⟨[1, 2, 3], 1024⟩

def rowEx : Recording :=
  ⟨1, "recording-7.webm",
    "https://example.supabase.co/storage/v1/object/public/uploads/recording-7.webm",
    3, 0⟩

def sEx : ServerState := ⟨[rowEx], 1, [("recording-7.webm", [1, 2, 3])]⟩

def envEx : Env := ⟨none, StorageOutcome.ok, StorageOutcome.ok, 0, 0, 0⟩

/-- C1: a Create whose object-store upload answers with a StorageError is
reported as HTTP 500 ("Failed to upload recording") and the whole store
state — in particular the metadata rows — is exactly what it was before. -/
theorem create_uploadError_reports_500_and_inserts_no_row
    (cfg : Config) (s : ServerState) (f : UploadedFile) (tN tI tR : Nat) :
    createHandler cfg s (some f) StorageOutcome.storageError tN tI tR =
      ⟨⟨500, Body.errorJson "Failed to upload recording"⟩, s,
        [StorageOp.upload (uniqueName tN) f.buffer]⟩ := rfl

/-- C2: a Delete on an id present in the metadata store whose object-store
removal answers with a StorageError is reported as HTTP 500 ("Failed to
delete file from Supabase") and the state is untouched, so the row is left
intact and the row count is unchanged. -/
theorem delete_storageError_reports_500_and_leaves_row
    (s : ServerState) (idStr : String) (r : Recording)
    (h : dbGet s idStr = some r) :
    deleteHandler s idStr StorageOutcome.storageError =
      ⟨⟨500, Body.errorJson "Failed to delete file from Supabase"⟩, s,
        [StorageOp.remove (deleteDerivedName r)]⟩ ∧ r ∈ s.rows := by
  refine ⟨?_, List.mem_of_find?_eq_some h⟩
  unfold deleteHandler
  rw [h]

theorem delete_storageError_reports_500_and_leaves_row_witness :
    dbGet sEx "1" = some rowEx ∧
      (deleteHandler sEx "1" StorageOutcome.storageError =
        ⟨⟨500, Body.errorJson "Failed to delete file from Supabase"⟩, sEx,
          [StorageOp.remove (deleteDerivedName rowEx)]⟩ ∧ rowEx ∈ sEx.rows) :=
  ⟨by decide,
    delete_storageError_reports_500_and_leaves_row sEx "1" rowEx (by decide)⟩

/-- C4: a Delete on an id absent from the metadata store is answered with
HTTP 404 ("Recording not found"), performs no object-store operation, and
leaves both stores exactly as they were. -/
theorem delete_missing_id_reports_404_untouched
    (s : ServerState) (idStr : String) (outcome : StorageOutcome)
    (h : dbGet s idStr = none) :
    deleteHandler s idStr outcome =
      ⟨⟨404, Body.errorJson "Recording not found"⟩, s, []⟩ := by
  unfold deleteHandler
  rw [h]

theorem delete_missing_id_reports_404_untouched_witness :
    dbGet initState "1" = none ∧
      deleteHandler initState "1" StorageOutcome.ok =
        ⟨⟨404, Body.errorJson "Recording not found"⟩, initState, []⟩ :=
  ⟨by decide,
    delete_missing_id_reports_404_untouched initState "1" StorageOutcome.ok
      (by decide)⟩

/-- C9: a Create carrying no file part is answered with HTTP 400
("No file uploaded"), attempts no object-store operation, and leaves the
state — hence the set of metadata rows — unchanged. -/
theorem create_without_file_400_no_effects
    (cfg : Config) (s : ServerState) (outcome : StorageOutcome)
    (tN tI tR : Nat) :
    createHandler cfg s none outcome tN tI tR =
      ⟨⟨400, Body.errorJson "No file uploaded"⟩, s, []⟩ := rfl

/-- C7 counterexample: create at insert time 1000 ms with the response built
at 2500 ms.  The store assigns `createdAt = 1000` to the inserted row, yet
the 201 response reports `createdAt = 2500` — the response does not equal
the persisted record. -/
theorem create_response_createdAt_diverges :
    (createHandler cfgEx initState (some fileEx) StorageOutcome.ok
        1000 1000 2500).state.rows.map Recording.createdAt = [1000] ∧
    respCreatedAt (createHandler cfgEx initState (some fileEx)
        StorageOutcome.ok 1000 1000 2500) = some 2500 ∧
    respCreatedAt (createHandler cfgEx initState (some fileEx)
        StorageOutcome.ok 1000 1000 2500) ≠ some 1000 :=
  ⟨rfl, rfl, by decide⟩

/-- C7 (amended): a successful Create appends exactly one row and the 201
response echoes that row's id, filename, url and filesize; its `createdAt`,
however, is taken afresh from the handler clock at response construction
(`new Date()`), not read back from the store, so it can differ from the
second-granularity timestamp the store assigned at insert. -/
theorem create_response_matches_row_except_createdAt
    (cfg : Config) (s : ServerState) (f : UploadedFile) (tN tI tR : Nat) :
    createHandler cfg s (some f) StorageOutcome.ok tN tI tR =
      ⟨⟨201, Body.recordingJson "Recording uploaded successfully"
          ⟨s.seq + 1, uniqueName tN, getPublicUrl cfg (uniqueName tN),
            f.size, tR⟩⟩,
        ⟨s.rows ++
            [⟨s.seq + 1, uniqueName tN, getPublicUrl cfg (uniqueName tN),
              f.size, secTrunc tI⟩],
          s.seq + 1, upsertObj s.objects (uniqueName tN) f.buffer⟩,
        [StorageOp.upload (uniqueName tN) f.buffer]⟩ := rfl

/-! Lemmas about `splitChar`, supporting the object-name derivation. -/

theorem splitChar_ne_nil (sep : Char) (l : List Char) :
    splitChar sep l ≠ [] := by
  cases l with
  | nil => simp [splitChar]
  | cons c cs =>
    simp only [splitChar]
    rcases h : splitChar sep cs with _ | ⟨p, ps⟩ <;>
      by_cases hc : c = sep <;> simp [hc]

theorem splitChar_of_not_mem {sep : Char} {l : List Char} (h : sep ∉ l) :
    splitChar sep l = [l] := by
  induction l with
  | nil => rfl
  | cons c cs ih =>
    have hc : ¬ c = sep := fun e => h (e ▸ List.mem_cons_self c cs)
    have hcs : sep ∉ cs := fun m => h (List.mem_cons_of_mem c m)
    simp only [splitChar, ih hcs]
    simp [hc]

theorem two_le_length_splitChar {sep : Char} {l : List Char} (h : sep ∈ l) :
    2 ≤ (splitChar sep l).length := by
  induction l with
  | nil => cases h
  | cons c cs ih =>
    simp only [splitChar]
    rcases hs : splitChar sep cs with _ | ⟨p, ps⟩
    · exact absurd hs (splitChar_ne_nil sep cs)
    · by_cases hc : c = sep
      · simp [hc]
      · have hmem : sep ∈ cs := by
          rcases List.mem_cons.mp h with h1 | h1
          · exact absurd h1.symm hc
          · exact h1
        have h2 := ih hmem
        rw [hs] at h2
        simp only [if_neg hc, List.length_cons]
        simp only [List.length_cons] at h2
        omega

theorem lastSeg_cons_of_ne_nil {p q : List Char} {ps : List (List Char)}
    (h : ps ≠ []) : lastSeg (p :: ps) = lastSeg (q :: ps) := by
  cases ps with
  | nil => exact absurd rfl h
  | cons x xs => rfl

theorem lastSeg_splitChar_append (sep : Char) (l₁ l₂ : List Char) :
    lastSeg (splitChar sep (l₁ ++ sep :: l₂)) =
      lastSeg (splitChar sep l₂) := by
  induction l₁ with
  | nil =>
    simp only [List.nil_append, splitChar]
    rcases hs : splitChar sep l₂ with _ | ⟨p, ps⟩
    · exact absurd hs (splitChar_ne_nil sep l₂)
    · simp only [if_pos rfl]
      rfl
  | cons c cs ih =>
    simp only [List.cons_append, splitChar]
    rcases hs : splitChar sep (cs ++ sep :: l₂) with _ | ⟨p, ps⟩
    · exact absurd hs (splitChar_ne_nil sep (cs ++ sep :: l₂))
    · have hps : ps ≠ [] := by
        have h2 := @two_le_length_splitChar sep (cs ++ sep :: l₂) (by simp)
        rw [hs] at h2
        simp only [List.length_cons] at h2
        cases ps with
        | nil => simp at h2
        | cons x xs => simp
      rw [hs] at ih
      by_cases hc : c = sep
      · simp only [if_pos hc]
        exact ih
      · simp only [if_neg hc]
        rw [lastSeg_cons_of_ne_nil (q := p) hps]
        exact ih

theorem charOfNat_digit_ne_slash {m : Nat} (hm : m < 10) :
    Char.ofNat (48 + m) ≠ '/' := by
  interval_cases m <;> decide

theorem slash_not_mem_decCharsAux (fuel : Nat) :
    ∀ n, '/' ∉ decCharsAux fuel n := by
  induction fuel with
  | zero => intro n; simp [decCharsAux]
  | succ fuel ih =>
    intro n hmem
    simp only [decCharsAux] at hmem
    by_cases hn : n < 10
    · rw [if_pos hn] at hmem
      simp only [List.mem_singleton] at hmem
      exact charOfNat_digit_ne_slash hn hmem.symm
    · rw [if_neg hn] at hmem
      rcases List.mem_append.mp hmem with h1 | h1
      · exact ih (n / 10) h1
      · simp only [List.mem_singleton] at h1
        exact charOfNat_digit_ne_slash (Nat.mod_lt n (by decide)) h1.symm

theorem slash_not_mem_uniqueName (t : Nat) : '/' ∉ (uniqueName t).data := by
  unfold uniqueName decimalRepr
  rw [String.data_append, String.data_append]
  intro hmem
  rcases List.mem_append.mp hmem with h1 | h1
  · rcases List.mem_append.mp h1 with h2 | h2
    · exact absurd h2 (by decide)
    · exact slash_not_mem_decCharsAux (t + 1) t h2
  · exact absurd h1 (by decide)

/-- The trailing path segment of the public URL of an uploaded object is
exactly the generated object name. -/
theorem jsSplitPop_getPublicUrl (cfg : Config) (t : Nat) :
    jsSplitPop (getPublicUrl cfg (uniqueName t)) = uniqueName t := by
  unfold jsSplitPop getPublicUrl
  rw [String.data_append, String.data_append]
  have hpref : ("/storage/v1/object/public/uploads/" : String).data =
      ("/storage/v1/object/public/uploads" : String).data ++ ['/'] := by decide
  rw [hpref]
  have harr : cfg.supabaseUrl.data ++
        (("/storage/v1/object/public/uploads" : String).data ++ ['/']) ++
        (uniqueName t).data =
      (cfg.supabaseUrl.data ++
          ("/storage/v1/object/public/uploads" : String).data) ++
        '/' :: (uniqueName t).data := by
    simp
  rw [harr, lastSeg_splitChar_append,
    splitChar_of_not_mem (slash_not_mem_uniqueName t)]
  rfl

/-- C10: a successful Create stores the generated object name as the row's
`filename`, stores a url whose trailing path segment equals that filename,
and uploads the payload under that very name; consequently the delete
handler's derived object name (`url.split("/").pop()`) for such a row is
exactly the object that was uploaded for it. -/
theorem created_row_filename_matches_url_segment
    (cfg : Config) (s : ServerState) (f : UploadedFile) (tN tI tR : Nat) :
    (createHandler cfg s (some f) StorageOutcome.ok tN tI tR).state.rows =
      s.rows ++
        [⟨s.seq + 1, uniqueName tN, getPublicUrl cfg (uniqueName tN),
          f.size, secTrunc tI⟩] ∧
    (createHandler cfg s (some f) StorageOutcome.ok tN tI tR).ops =
      [StorageOp.upload (uniqueName tN) f.buffer] ∧
    jsSplitPop (getPublicUrl cfg (uniqueName tN)) = uniqueName tN ∧
    deleteDerivedName
      ⟨s.seq + 1, uniqueName tN, getPublicUrl cfg (uniqueName tN),
        f.size, secTrunc tI⟩ = uniqueName tN :=
  ⟨rfl, rfl, jsSplitPop_getPublicUrl cfg tN, jsSplitPop_getPublicUrl cfg tN⟩

/-! Lemmas about `ORDER BY createdAt DESC`. -/

theorem orderedInsert_eq_append {a : Recording} {m : List Recording}
    (h : ∀ b ∈ m, ¬ newerFirst a b) :
    List.orderedInsert newerFirst a m = m ++ [a] := by
  induction m with
  | nil => rfl
  | cons b l ih =>
    have hb : ¬ newerFirst a b := h b (List.mem_cons_self b l)
    simp only [List.orderedInsert, if_neg hb]
    rw [ih (fun x hx => h x (List.mem_cons_of_mem b hx))]
    rfl

theorem insertionSort_strictAsc_reverse {l : List Recording}
    (h : l.Pairwise (fun p q => p.createdAt < q.createdAt)) :
    List.insertionSort newerFirst l = l.reverse := by
  induction l with
  | nil => rfl
  | cons a t ih =>
    rcases List.pairwise_cons.mp h with ⟨ha, ht⟩
    simp only [List.insertionSort]
    rw [ih ht, orderedInsert_eq_append]
    · simp
    · intro b hb
      have hlt : a.createdAt < b.createdAt := ha b (List.mem_reverse.mp hb)
      exact Nat.not_le.mpr hlt

theorem runCreates_map_createdAt (cfg : Config) (f : UploadedFile) :
    ∀ (ts : List Nat) (s : ServerState),
      (runCreates cfg f s ts).rows.map Recording.createdAt =
        s.rows.map Recording.createdAt ++ ts.map secTrunc := by
  intro ts
  induction ts with
  | nil => intro s; simp [runCreates]
  | cons t rest ih =>
    intro s
    rw [show runCreates cfg f s (t :: rest) =
        runCreates cfg f
          ((createHandler cfg s (some f) StorageOutcome.ok t t t).state) rest
      from rfl, ih]
    simp [createHandler]

/-- C5: the list endpoint always returns a permutation of the stored rows
sorted by `createdAt` descending; and after N successful creates from an
empty store, at clock values whose store-assigned (second-truncated)
timestamps strictly increase, it returns exactly N rows in reverse
insertion order, the i-th created row carrying the i-th assigned
timestamp. -/
theorem list_sorted_desc_and_reverse_insertion_order
    (cfg : Config) (f : UploadedFile) (s : ServerState) (ts : List Nat)
    (hts : ts.Pairwise (fun a b => secTrunc a < secTrunc b)) :
    List.Sorted newerFirst (listAll s) ∧ List.Perm (listAll s) s.rows ∧
    (runCreates cfg f initState ts).rows.length = ts.length ∧
    (runCreates cfg f initState ts).rows.map Recording.createdAt =
      ts.map secTrunc ∧
    listAll (runCreates cfg f initState ts) =
      (runCreates cfg f initState ts).rows.reverse := by
  have hmap : (runCreates cfg f initState ts).rows.map Recording.createdAt =
      ts.map secTrunc := by
    rw [runCreates_map_createdAt]
    rfl
  refine ⟨List.sorted_insertionSort newerFirst s.rows,
    List.perm_insertionSort newerFirst s.rows, ?_, hmap, ?_⟩
  · have := congrArg List.length hmap
    simpa using this
  · have hpw : (runCreates cfg f initState ts).rows.Pairwise
        (fun p q => p.createdAt < q.createdAt) := by
      rw [← List.pairwise_map (f := Recording.createdAt)]
      rw [hmap, List.pairwise_map]
      exact hts
    exact insertionSort_strictAsc_reverse hpw

theorem list_sorted_desc_and_reverse_insertion_order_witness :
    List.Pairwise (fun a b => secTrunc a < secTrunc b) [0, 1000, 2000] ∧
    (List.Sorted newerFirst (listAll sEx) ∧ List.Perm (listAll sEx) sEx.rows ∧
      (runCreates cfgEx fileEx initState [0, 1000, 2000]).rows.length =
        ([0, 1000, 2000] : List Nat).length ∧
      (runCreates cfgEx fileEx initState [0, 1000, 2000]).rows.map
          Recording.createdAt = ([0, 1000, 2000] : List Nat).map secTrunc ∧
      listAll (runCreates cfgEx fileEx initState [0, 1000, 2000]) =
        (runCreates cfgEx fileEx initState [0, 1000, 2000]).rows.reverse) :=
  ⟨by decide,
    list_sorted_desc_and_reverse_insertion_order cfgEx fileEx sEx
      [0, 1000, 2000] (by decide)⟩

/-- C8 counterexample: with a frontend build present, a GET request whose
route matches none of the four API operations is served the SPA entry
document with status 200 — not the 404 plain-text fallback the claim
demands for every unmatched route. -/
theorem unmatched_get_with_build_serves_spa :
    matchRoute ⟨Method.get, "/some/page"⟩ = none ∧
    (handle cfgSpa sEx envEx ⟨Method.get, "/some/page"⟩).resp =
      ⟨200, Body.page "index.html"⟩ ∧
    (handle cfgSpa sEx envEx ⟨Method.get, "/some/page"⟩).resp.status ≠ 404 :=
  ⟨by decide, by decide, by decide⟩

/-- C8 (amended): a request matching none of the four API routes receives
the 404 plain-text fallback ("Route not found") when no frontend build
directory is present or the method is not GET; when a build is present, an
unmatched GET is instead served the SPA entry document with status 200.  In
both cases the state is untouched and no storage operation is attempted. -/
theorem unmatched_route_fallback
    (cfg : Config) (s : ServerState) (env : Env) (req : Request)
    (h : matchRoute req = none) :
    (cfg.hasBuildFolder = false ∨ req.method ≠ Method.get →
      handle cfg s env req = ⟨⟨404, Body.text "Route not found"⟩, s, []⟩) ∧
    (cfg.hasBuildFolder = true → req.method = Method.get →
      handle cfg s env req = ⟨⟨200, Body.page "index.html"⟩, s, []⟩) := by
  unfold handle
  rw [h]
  constructor
  · intro hcase
    rw [if_neg]
    rintro ⟨hb, hm⟩
    rcases hcase with h1 | h1
    · rw [h1] at hb
      cases hb
    · exact h1 hm
  · intro hb hm
    rw [if_pos ⟨hb, hm⟩]

theorem unmatched_route_fallback_witness :
    matchRoute ⟨Method.post, "/nowhere"⟩ = none ∧
    ((cfgEx.hasBuildFolder = false ∨
        (⟨Method.post, "/nowhere"⟩ : Request).method ≠ Method.get →
      handle cfgEx sEx envEx ⟨Method.post, "/nowhere"⟩ =
        ⟨⟨404, Body.text "Route not found"⟩, sEx, []⟩) ∧
    (cfgEx.hasBuildFolder = true →
        (⟨Method.post, "/nowhere"⟩ : Request).method = Method.get →
      handle cfgEx sEx envEx ⟨Method.post, "/nowhere"⟩ =
        ⟨⟨200, Body.page "index.html"⟩, sEx, []⟩)) :=
  ⟨by decide, unmatched_route_fallback cfgEx sEx envEx ⟨Method.post, "/nowhere"⟩
    (by decide)⟩

/-! Shape lemmas: how one handled request can change the store. -/

theorem emitted_create (cfg : Config) (s : ServerState)
    (file? : Option UploadedFile) (outcome : StorageOutcome)
    (tN tI tR : Nat) :
    (emitted (createHandler cfg s file? outcome tN tI tR) = [] ∧
      (createHandler cfg s file? outcome tN tI tR).state.seq = s.seq) ∨
    (emitted (createHandler cfg s file? outcome tN tI tR) = [s.seq + 1] ∧
      (createHandler cfg s file? outcome tN tI tR).state.seq = s.seq + 1) := by
  cases file? with
  | none => exact Or.inl ⟨rfl, rfl⟩
  | some f =>
    cases outcome with
    | ok => exact Or.inr ⟨rfl, rfl⟩
    | storageError => exact Or.inl ⟨rfl, rfl⟩

theorem emitted_delete (s : ServerState) (idStr : String)
    (outcome : StorageOutcome) :
    emitted (deleteHandler s idStr outcome) = [] ∧
      (deleteHandler s idStr outcome).state.seq = s.seq := by
  unfold deleteHandler
  cases h : dbGet s idStr with
  | none => exact ⟨rfl, rfl⟩
  | some r =>
    cases outcome with
    | ok => exact ⟨rfl, rfl⟩
    | storageError => exact ⟨rfl, rfl⟩

theorem emitted_getOne (s : ServerState) (idStr : String) :
    emitted (getOneHandler s idStr) = [] ∧
      (getOneHandler s idStr).state.seq = s.seq := by
  unfold getOneHandler
  cases h : dbGet s idStr with
  | none => exact ⟨rfl, rfl⟩
  | some r => exact ⟨rfl, rfl⟩

/-- Each request either assigns no id and keeps the sequence, or is a
successful create assigning exactly `seq + 1` and bumping the sequence. -/
theorem emitted_handle (cfg : Config) (s : ServerState) (env : Env)
    (req : Request) :
    (emitted (handle cfg s env req) = [] ∧
      (handle cfg s env req).state.seq = s.seq) ∨
    (emitted (handle cfg s env req) = [s.seq + 1] ∧
      (handle cfg s env req).state.seq = s.seq + 1) := by
  unfold handle
  cases hm : matchRoute req with
  | none =>
    by_cases hb : cfg.hasBuildFolder = true ∧ req.method = Method.get
    · rw [if_pos hb]
      exact Or.inl ⟨rfl, rfl⟩
    · rw [if_neg hb]
      exact Or.inl ⟨rfl, rfl⟩
  | some op =>
    cases op with
    | create =>
      exact emitted_create cfg s env.file? env.uploadOutcome env.tName
        env.tIns env.tResp
    | list => exact Or.inl ⟨rfl, rfl⟩
    | getOne idStr => exact Or.inl (emitted_getOne s idStr)
    | deleteOne idStr => exact Or.inl (emitted_delete s idStr env.removeOutcome)

theorem seq_mono (cfg : Config) (s : ServerState) (env : Env)
    (req : Request) : s.seq ≤ (handle cfg s env req).state.seq := by
  rcases emitted_handle cfg s env req with ⟨_, hs⟩ | ⟨_, hs⟩ <;> omega

theorem rows_create (cfg : Config) (s : ServerState)
    (file? : Option UploadedFile) (outcome : StorageOutcome)
    (tN tI tR : Nat) :
    ∀ q ∈ (createHandler cfg s file? outcome tN tI tR).state.rows,
      q ∈ s.rows ∨ q.id = s.seq + 1 := by
  cases file? with
  | none => exact fun q hq => Or.inl hq
  | some f =>
    cases outcome with
    | storageError => exact fun q hq => Or.inl hq
    | ok =>
      intro q hq
      rcases List.mem_append.mp hq with h1 | h1
      · exact Or.inl h1
      · right
        rw [List.mem_singleton.mp h1]

theorem rows_getOne (s : ServerState) (idStr : String) :
    ∀ q ∈ (getOneHandler s idStr).state.rows, q ∈ s.rows := by
  unfold getOneHandler
  cases h : dbGet s idStr with
  | none => exact fun q hq => hq
  | some r => exact fun q hq => hq

theorem rows_delete (s : ServerState) (idStr : String)
    (outcome : StorageOutcome) :
    ∀ q ∈ (deleteHandler s idStr outcome).state.rows, q ∈ s.rows := by
  unfold deleteHandler
  cases h : dbGet s idStr with
  | none => exact fun q hq => hq
  | some r =>
    cases outcome with
    | storageError => exact fun q hq => hq
    | ok => exact fun q hq => List.mem_of_mem_filter hq

/-- Any row present after a request was either already present or is the
row a successful create just inserted, which carries id `seq + 1`. -/
theorem rows_handle (cfg : Config) (s : ServerState) (env : Env)
    (req : Request) :
    ∀ q ∈ (handle cfg s env req).state.rows, q ∈ s.rows ∨ q.id = s.seq + 1 := by
  cases hm : matchRoute req with
  | none =>
    simp only [handle, hm]
    by_cases hb : cfg.hasBuildFolder = true ∧ req.method = Method.get
    · rw [if_pos hb]
      exact fun q hq => Or.inl hq
    · rw [if_neg hb]
      exact fun q hq => Or.inl hq
  | some op =>
    cases op with
    | create =>
      simp only [handle, hm]
      exact rows_create cfg s env.file? env.uploadOutcome env.tName env.tIns
        env.tResp
    | list =>
      simp only [handle, hm]
      exact fun q hq => Or.inl hq
    | getOne idStr =>
      simp only [handle, hm]
      exact fun q hq => Or.inl (rows_getOne s idStr q hq)
    | deleteOne idStr =>
      simp only [handle, hm]
      exact fun q hq => Or.inl (rows_delete s idStr env.removeOutcome q hq)

/-- Along any trace, the assigned ids strictly increase, each one exceeds
the sequence value at the start of the trace, and none exceeds the final
sequence value. -/
theorem assignedIds_spec (cfg : Config) :
    ∀ (evs : List (Request × Env)) (s : ServerState),
      List.Pairwise (fun i j => i < j) (assignedIds cfg s evs) ∧
      (∀ i ∈ assignedIds cfg s evs,
        s.seq < i ∧ i ≤ (runTrace cfg s evs).seq) ∧
      s.seq ≤ (runTrace cfg s evs).seq := by
  intro evs
  induction evs with
  | nil =>
    intro s
    exact ⟨List.Pairwise.nil, by simp [assignedIds], Nat.le_refl s.seq⟩
  | cons ev rest ih =>
    intro s
    have hrun : runTrace cfg s (ev :: rest) =
        runTrace cfg ((handle cfg s ev.2 ev.1).state) rest := rfl
    have hassigned : assignedIds cfg s (ev :: rest) =
        emitted (handle cfg s ev.2 ev.1) ++
          assignedIds cfg ((handle cfg s ev.2 ev.1).state) rest := rfl
    obtain ⟨ih1, ih2, ih3⟩ := ih ((handle cfg s ev.2 ev.1).state)
    rcases emitted_handle cfg s ev.2 ev.1 with ⟨he, hs⟩ | ⟨he, hs⟩
    · rw [hassigned, he, List.nil_append, hrun]
      refine ⟨ih1, ?_, by omega⟩
      intro i hi
      obtain ⟨h1, h2⟩ := ih2 i hi
      exact ⟨by omega, h2⟩
    · rw [hassigned, he, hrun, List.singleton_append]
      refine ⟨List.Pairwise.cons ?_ ih1, ?_, by omega⟩
      · intro i hi
        have h1 := (ih2 i hi).1
        omega
      · intro i hi
        rcases List.mem_cons.mp hi with h1 | h1
        · subst h1
          exact ⟨by omega, by omega⟩
        · obtain ⟨h1, h2⟩ := ih2 i h1
          exact ⟨by omega, h2⟩

/-- C6: over any history of handled requests starting from a fresh store,
the ids handed out by successful creates are strictly increasing in order
of assignment: each new id is strictly greater than every id assigned
before it — in particular an id is never reused after its row is deleted. -/
theorem assigned_ids_strictly_increase (cfg : Config)
    (evs : List (Request × Env)) :
    List.Pairwise (fun i j => i < j) (assignedIds cfg initState evs) :=
  (assignedIds_spec cfg evs initState).1

/-- Deleting by an id that occurs once (ids are Nodup) removes exactly one
row. -/
theorem length_filter_ne (l : List Recording) (r : Recording) (hmem : r ∈ l)
    (hnd : (l.map Recording.id).Nodup) :
    (l.filter (fun q => q.id ≠ r.id)).length + 1 = l.length := by
  induction l with
  | nil => cases hmem
  | cons a t ih =>
    rw [List.map_cons, List.nodup_cons] at hnd
    obtain ⟨hna, hnt⟩ := hnd
    rcases List.mem_cons.mp hmem with he | ht
    · subst he
      rw [List.filter_cons, if_neg (by simp)]
      have hkeep : t.filter (fun q => decide (q.id ≠ r.id)) = t := by
        apply List.filter_eq_self.mpr
        intro q hq
        apply decide_eq_true
        intro he2
        apply hna
        rw [← he2]
        exact List.mem_map_of_mem Recording.id hq
      rw [hkeep]
      simp
    · have haid : a.id ≠ r.id := by
        intro e
        apply hna
        rw [e]
        exact List.mem_map_of_mem Recording.id ht
      rw [List.filter_cons, if_pos (decide_eq_true haid)]
      have h2 := ih ht hnt
      simp only [List.length_cons]
      omega

/-- An id bounded by the sequence and absent from the rows can never appear
in the rows again, whatever requests follow. -/
theorem notin_trace (cfg : Config) (x : Nat) :
    ∀ (evs : List (Request × Env)) (s : ServerState),
      (∀ q ∈ s.rows, q.id ≠ x) → x ≤ s.seq →
      (∀ q ∈ (runTrace cfg s evs).rows, q.id ≠ x) ∧
        x ≤ (runTrace cfg s evs).seq := by
  intro evs
  induction evs with
  | nil => exact fun s h1 h2 => ⟨h1, h2⟩
  | cons ev rest ih =>
    intro s h1 h2
    have hrun : runTrace cfg s (ev :: rest) =
        runTrace cfg ((handle cfg s ev.2 ev.1).state) rest := rfl
    rw [hrun]
    apply ih
    · intro q hq
      rcases rows_handle cfg s ev.2 ev.1 q hq with h | h
      · exact h1 q h
      · rw [h]
        omega
    · have := seq_mono cfg s ev.2 ev.1
      omega

/-- C3: deleting an existing id with a successful object-store removal
answers 200, removes exactly the row with that id (one row fewer, every
other row kept), and — whatever requests are handled afterwards — no row
with that id ever again appears in the table, so neither a later
`GET /api/recordings/:id` lookup nor a later listing can return it. -/
theorem delete_ok_removes_exactly_the_row
    (s : ServerState) (idStr : String) (r : Recording)
    (hwf : WF s) (hget : dbGet s idStr = some r) :
    (deleteHandler s idStr StorageOutcome.ok).resp =
      ⟨200, Body.messageJson "Recording deleted successfully"⟩ ∧
    (deleteHandler s idStr StorageOutcome.ok).state.rows =
      s.rows.filter (fun q => q.id ≠ r.id) ∧
    (deleteHandler s idStr StorageOutcome.ok).state.rows.length + 1 =
      s.rows.length ∧
    (∀ q ∈ s.rows, q.id ≠ r.id →
      q ∈ (deleteHandler s idStr StorageOutcome.ok).state.rows) ∧
    (∀ (cfg : Config) (evs : List (Request × Env)) (q : Recording),
      q ∈ (runTrace cfg (deleteHandler s idStr StorageOutcome.ok).state
        evs).rows → q.id ≠ r.id) ∧
    (∀ (cfg : Config) (evs : List (Request × Env)) (str : String)
      (q : Recording),
      dbGet (runTrace cfg (deleteHandler s idStr StorageOutcome.ok).state evs)
        str = some q → q.id ≠ r.id) ∧
    (∀ (cfg : Config) (evs : List (Request × Env)) (q : Recording),
      q ∈ listAll (runTrace cfg
        (deleteHandler s idStr StorageOutcome.ok).state evs) →
      q.id ≠ r.id) := by
  obtain ⟨hnd, hbound⟩ := hwf
  have hget' :
      s.rows.find? (fun q => parseDec idStr = some q.id) = some r := hget
  have hmem : r ∈ s.rows := List.mem_of_find?_eq_some hget'
  have hdec := @List.find?_some Recording
    (fun q => decide (parseDec idStr = some q.id)) r s.rows hget'
  have hpr : parseDec idStr = some r.id := of_decide_eq_true hdec
  have hstep : deleteHandler s idStr StorageOutcome.ok =
      ⟨⟨200, Body.messageJson "Recording deleted successfully"⟩,
        ⟨s.rows.filter (fun q => parseDec idStr ≠ some q.id), s.seq,
          removeObj s.objects (deleteDerivedName r)⟩,
        [StorageOp.remove (deleteDerivedName r)]⟩ := by
    unfold deleteHandler
    rw [hget]
  have hfilter : s.rows.filter (fun q => parseDec idStr ≠ some q.id) =
      s.rows.filter (fun q => q.id ≠ r.id) := by
    apply List.filter_congr
    intro x hx
    rw [decide_eq_decide, hpr]
    constructor
    · intro h he
      apply h
      rw [he]
    · intro h he
      exact h (Option.some.inj he).symm
  have hrows : (deleteHandler s idStr StorageOutcome.ok).state.rows =
      s.rows.filter (fun q => q.id ≠ r.id) := by
    rw [hstep]
    exact hfilter
  have hafter : ∀ q ∈ (deleteHandler s idStr StorageOutcome.ok).state.rows,
      q.id ≠ r.id := by
    intro q hq
    rw [hrows] at hq
    exact of_decide_eq_true (List.mem_filter.mp hq).2
  have hseq : r.id ≤ (deleteHandler s idStr StorageOutcome.ok).state.seq := by
    rw [hstep]
    exact hbound r hmem
  refine ⟨by rw [hstep], hrows, ?_, ?_, ?_, ?_, ?_⟩
  · rw [hrows]
    exact length_filter_ne s.rows r hmem hnd
  · intro q hq hne
    rw [hrows]
    exact List.mem_filter.mpr ⟨hq, decide_eq_true hne⟩
  · intro cfg evs q hq
    exact (notin_trace cfg r.id evs _ hafter hseq).1 q hq
  · intro cfg evs str q hq
    exact (notin_trace cfg r.id evs _ hafter hseq).1 q
      (List.mem_of_find?_eq_some hq)
  · intro cfg evs q hq
    exact (notin_trace cfg r.id evs _ hafter hseq).1 q
      ((List.perm_insertionSort newerFirst _).mem_iff.mp hq)

theorem delete_ok_removes_exactly_the_row_witness :
    WF sEx ∧ dbGet sEx "1" = some rowEx ∧
    ((deleteHandler sEx "1" StorageOutcome.ok).resp =
      ⟨200, Body.messageJson "Recording deleted successfully"⟩ ∧
    (deleteHandler sEx "1" StorageOutcome.ok).state.rows =
      sEx.rows.filter (fun q => q.id ≠ rowEx.id) ∧
    (deleteHandler sEx "1" StorageOutcome.ok).state.rows.length + 1 =
      sEx.rows.length ∧
    (∀ q ∈ sEx.rows, q.id ≠ rowEx.id →
      q ∈ (deleteHandler sEx "1" StorageOutcome.ok).state.rows) ∧
    (∀ (cfg : Config) (evs : List (Request × Env)) (q : Recording),
      q ∈ (runTrace cfg (deleteHandler sEx "1" StorageOutcome.ok).state
        evs).rows → q.id ≠ rowEx.id) ∧
    (∀ (cfg : Config) (evs : List (Request × Env)) (str : String)
      (q : Recording),
      dbGet (runTrace cfg (deleteHandler sEx "1" StorageOutcome.ok).state evs)
        str = some q → q.id ≠ rowEx.id) ∧
    (∀ (cfg : Config) (evs : List (Request × Env)) (q : Recording),
      q ∈ listAll (runTrace cfg
        (deleteHandler sEx "1" StorageOutcome.ok).state evs) →
      q.id ≠ rowEx.id)) :=
  ⟨⟨by decide, by decide⟩, by decide,
    delete_ok_removes_exactly_the_row sEx "1" rowEx ⟨by decide, by decide⟩
      (by decide)⟩

end Backend
